import Mathlib

/-!
# Polling pattern: job submission, progress driver and status endpoints

A shallow embedding of `src/index.js` (immediate-mode status endpoint) and
`src/long-polling.js` (long-polling status endpoint).  Both files share the
`POST /submit` handler and the self-rescheduling `updateJob` driver; they differ
in `GET /checkStatus`.

The JavaScript event loop is made explicit: the state carries the `jobs` object,
the pending `setTimeout` callbacks and the responses sent so far, and every
handler or timer callback is a function from state to state.
-/

namespace Polling

/-! ## JavaScript values and the `jobs` object -/

/-- The values an expression `jobs[key]` can evaluate to: `undefined`, a number
stored by the program, or a member that the object literal `{}` inherits from
`Object.prototype`.  Numbers are integers: the program stores 0 and sums of 5,
on which JavaScript arithmetic is exact. -/
inductive JSVal where
  | undefined
  | num (n : Int)
  | inherited (name : String)
  deriving DecidableEq, Repr

/-- The property names of `Object.prototype`, which every object created by the
literal `{}` (such as `const jobs={}`) inherits. -/
def objectPrototypeNames : List String :=
  ["constructor", "__defineGetter__", "__defineSetter__", "hasOwnProperty",
   "__lookupGetter__", "__lookupSetter__", "isPrototypeOf", "propertyIsEnumerable",
   "toString", "valueOf", "__proto__", "toLocaleString"]

/-- The own properties of `const jobs={}`: the entries the program has stored. -/
abbrev Registry := String → Option Int

/-- The registry at start-up: `{}` has no own property. -/
def Registry.empty : Registry := fun _ => none

/-- The expression `jobs[key]`: an own property if there is one, otherwise the
member inherited from `Object.prototype`, otherwise `undefined`. -/
def Registry.get (jobs : Registry) (key : String) : JSVal :=
  match jobs key with
  | some n => JSVal.num n
  | none => if key ∈ objectPrototypeNames then JSVal.inherited key else JSVal.undefined

/-- The assignment `jobs[key] = value` with a number on the right.  It creates or
overwrites the own property `key`; for the key `__proto__` it runs the inherited
setter, which ignores a value that is not an object. -/
def Registry.set (jobs : Registry) (key : String) (value : Int) : Registry :=
  if key = "__proto__" then jobs
  else fun k => if k = key then some value else jobs k

/-- The truthiness of a value, as tested by `!value`: `undefined` and the number
`0` are falsy, every other number and every inherited member is truthy. -/
def JSVal.truthy : JSVal → Bool
  | JSVal.undefined => false
  | JSVal.num n => decide (n ≠ 0)
  | JSVal.inherited _ => true

/-- The comparison `value >= 100`: numeric for a number; `undefined` and the
inherited members convert to `NaN`, for which the comparison is false. -/
def JSVal.geHundred : JSVal → Bool
  | JSVal.num n => decide (100 ≤ n)
  | _ => false

/-- The string a value becomes in `"\n\n" + value + "\n\n"`. -/
def JSVal.render : JSVal → String
  | JSVal.undefined => "undefined"
  | JSVal.num n => toString n
  | JSVal.inherited name =>
    if name = "__proto__" then "[object Object]"
    else if name = "constructor" then "function Object() \x7b [native code] \x7d"
    else "function " ++ name ++ "() \x7b [native code] \x7d"

/-- The value of `req.query.jobId` used as a property key: an absent parameter is
`undefined`, whose key is the string `undefined`. -/
def queryKey : Option String → String
  | none => "undefined"
  | some k => k

/-- The test `!jobId` on `req.query.jobId`: true when the parameter is absent or
is the empty string. -/
def queryFalsy : Option String → Bool
  | none => true
  | some k => decide (k = "")

/-! ## Server state -/

/-- An HTTP response: status code and body. -/
structure Response where
  status : Nat
  body : String
  deriving DecidableEq, Repr

/-- The state of one server process.
* `jobs`: the own properties of the `jobs` object;
* `timers`: the pending `setTimeout(() => updateJob(jobId, newValue + 5), 2000)`
  callbacks, as the arguments of the call each will make, oldest first;
* `polls`: the pending `setTimeout(checkComplete, 1000)` callbacks, each with the
  request it belongs to and the `jobId` of its closure, oldest first;
* `sent`: the responses sent so far, each with the request it answers. -/
structure State where
  jobs : Registry
  timers : List (String × Int)
  polls : List (Nat × String)
  sent : List (Nat × Response)

/-- The server at start-up. -/
def State.init : State :=
  { jobs := Registry.empty, timers := [], polls := [], sent := [] }

/-- The job identifier built by the template literal that joins `job:` and
`Date.now()`, for the clock reading `now` (milliseconds since the epoch). -/
def jobId (now : Nat) : String := "job:" ++ toString now

/-- The body `"\n\n" + text + "\n\n"` used by the handlers. -/
def framed (text : String) : String := "\n\n" ++ text ++ "\n\n"

/-! ## The program -/

/-- The function `updateJob(jobId, newValue)` of both files: store the value, stop
if it equals 100, otherwise schedule `updateJob(jobId, newValue + 5)`.  The sum
is the exact one, as it is in the code on every value the program passes (0, 5,
..., 100). -/
def updateJob (jobId : String) (newValue : Int) (s : State) : State :=
  let s1 := { s with jobs := s.jobs.set jobId newValue }
  if newValue = 100 then s1
  else { s1 with timers := s1.timers ++ [(jobId, newValue + 5)] }

/-- The handler of `POST /submit` of both files, for request `r` when `Date.now()`
reads `now`. -/
def submit (r : Nat) (now : Nat) (s : State) : State :=
  let id := jobId now
  let s1 := { s with jobs := s.jobs.set id 0 }
  let s2 := updateJob id 0 s1
  { s2 with sent := s2.sent ++ [(r, { status := 200, body := framed id })] }

/-- The handler of `GET /checkStatus` in `index.js` (immediate mode), for request
`r` with query parameter `q`. -/
def checkStatus (r : Nat) (q : Option String) (s : State) : State :=
  { s with sent := s.sent ++
      [(r, { status := 200, body := framed (s.jobs.get (queryKey q)).render })] }

/-- The closure `checkComplete` of `long-polling.js`, for request `r` and the
`jobId` it captured: answer once the stored value is at least 100, otherwise
schedule itself again. -/
def checkComplete (r : Nat) (jobId : String) (s : State) : State :=
  if (s.jobs.get jobId).geHundred then
    { s with sent := s.sent ++
        [(r, { status := 200, body := framed (s.jobs.get jobId).render })] }
  else { s with polls := s.polls ++ [(r, jobId)] }

/-- The handler of `GET /checkStatus` in `long-polling.js`, for request `r` with
query parameter `q`: the guard `!jobId || !jobs[jobId]` answers 404, otherwise
`checkComplete` runs once at once. -/
def checkStatusLongPolling (r : Nat) (q : Option String) (s : State) : State :=
  if queryFalsy q || !(s.jobs.get (queryKey q)).truthy then
    { s with sent := s.sent ++ [(r, { status := 404, body := "Job not found" })] }
  else checkComplete r (queryKey q) s

/-! ## Executions -/

/-- What can happen in a server process: a request arrives, or a pending timer
fires.  Node fires timers in order of their due time; here any pending timer may
fire next, which includes every order Node can produce. -/
inductive Event where
  | submit (r : Nat) (now : Nat)
  | checkStatus (r : Nat) (q : Option String)
  | checkStatusLongPolling (r : Nat) (q : Option String)
  | driverTimer (jobId : String) (newValue : Int)
  | pollTimer (r : Nat) (jobId : String)
  deriving DecidableEq, Repr

/-- One step of the event loop.  A timer event that names no pending timer leaves
the state as it is. -/
def step (s : State) : Event → State
  | Event.submit r now => submit r now s
  | Event.checkStatus r q => checkStatus r q s
  | Event.checkStatusLongPolling r q => checkStatusLongPolling r q s
  | Event.driverTimer id v =>
    if (id, v) ∈ s.timers then updateJob id v { s with timers := s.timers.erase (id, v) }
    else s
  | Event.pollTimer r id =>
    if (r, id) ∈ s.polls then checkComplete r id { s with polls := s.polls.erase (r, id) }
    else s

/-- The state after a sequence of events. -/
def run (s : State) : List Event → State
  | [] => s
  | e :: es => run (step s e) es

/-! ## Observations on executions -/

/-- The driver timers pending for job `id`, oldest first. -/
def pendingFor (id : String) (s : State) : List (String × Int) :=
  s.timers.filter (fun p => decide (p.1 = id))

/-- Whether the event is a `POST /submit` that builds the identifier `id`. -/
def submitsId (id : String) : Event → Bool
  | Event.submit _ now => decide (jobId now = id)
  | _ => false

/-- The number of submissions in the execution that build the identifier `id`. -/
def submissions (id : String) (es : List Event) : Nat :=
  es.countP (submitsId id)

/-- Whether the event, in state `s`, fires a pending driver timer of job `id`. -/
def firesFor (id : String) (s : State) : Event → Bool
  | Event.driverTimer k v => decide (k = id) && decide ((k, v) ∈ s.timers)
  | _ => false

/-- The number of driver timers of job `id` that fire in the execution `es`
started in state `s`. -/
def driverFirings (id : String) : State → List Event → Nat
  | _, [] => 0
  | s, e :: es => (if firesFor id s e then 1 else 0) + driverFirings id (step s e) es

/-- Whether the event is the firing of a driver timer (pending or not). -/
def isDriverTimer : Event → Bool
  | Event.driverTimer _ _ => true
  | _ => false

/-- The number a value is, if it is one. -/
def JSVal.number : JSVal → Option Int
  | JSVal.num n => some n
  | _ => none

/-- Whether the event is an immediate-mode `checkStatus` request whose `jobId`
parameter is the key `id`. -/
def readsId (id : String) : Event → Bool
  | Event.checkStatus _ q => decide (queryKey q = id)
  | _ => false

/-- The responses the server sends in one step: what the step appends to `sent`. -/
def responsesOf (s : State) (e : Event) : List Response :=
  ((step s e).sent.drop s.sent.length).map Prod.snd

/-- The responses sent, in order, to the immediate-mode reads of `id` in the
execution `es` started in state `s`. -/
def readResponses (id : String) : State → List Event → List Response
  | _, [] => []
  | s, e :: es =>
    (if readsId id e then responsesOf s e else []) ++ readResponses id (step s e) es

/-- The values `jobs[id]` has, in order, at the immediate-mode reads of `id` in
the execution `es` started in state `s`. -/
def readValues (id : String) : State → List Event → List JSVal
  | _, [] => []
  | s, e :: es =>
    (if readsId id e then [s.jobs.get id] else []) ++ readValues id (step s e) es

/-- The response that carries a value: status 200 and the text of the value
between blank lines. -/
def answer (v : JSVal) : Response :=
  { status := 200, body := framed v.render }

/-- The progress value an immediate-mode read of `id` returns at event `e` in
state `s`, when `jobs[id]` is a number. -/
def progressRead (id : String) (s : State) (e : Event) : Option Int :=
  if readsId id e then (s.jobs.get id).number else none

/-- The progress values returned, in order, by the immediate-mode reads of `id`
in the execution `es` started in state `s`: the numbers among the values read. -/
def progressReads (id : String) (s : State) (es : List Event) : List Int :=
  (readValues id s es).filterMap JSVal.number

/-- What every execution from start-up keeps: each stored progress lies in
[0, 100], and each pending driver timer is for an identifier built by `submit`
and carries a multiple of 5 in [0, 100]. -/
def InRange (s : State) : Prop :=
  (∀ k n, s.jobs k = some n → 0 ≤ n ∧ n ≤ 100) ∧
  ∀ p ∈ s.timers, (∃ now, p.1 = jobId now) ∧ 5 ∣ p.2 ∧ 0 ≤ p.2 ∧ p.2 ≤ 100

/-- The calls `updateJob(id, v)` the program makes.  The function is private to
its file and has two call sites: the one in the `submit` handler, with the new
identifier and 0, and the one in the timer callback, so with the arguments of a
timer that is pending in some execution from start-up. -/
def DriverCall (id : String) (v : Int) : Prop :=
  (∃ now, id = jobId now ∧ v = 0) ∨ ∃ es, (id, v) ∈ (run State.init es).timers

/-- The number a list of decimal digit characters denotes. -/
def decimalValue (l : List Char) : Nat :=
  l.foldl (fun a c => 10 * a + (c.toNat - 48)) 0

/-- The driver of job `id` after `k` of its timers have fired: the stored
progress is `5 * k`, and one timer is pending, for the next value, as long as
`k` is below 20. -/
def DriverAt (id : String) (k : Nat) (s : State) : Prop :=
  k ≤ 20 ∧ s.jobs id = some (5 * (k : Int)) ∧
    pendingFor id s = if k < 20 then [(id, 5 * ((k : Int) + 1))] else []

/-- The execution in which the driver timers of `id` for 5, 10, ..., `5 * n` fire
one after the other. -/
def firings (id : String) (n : Nat) : List Event :=
  (List.range n).map (fun i => Event.driverTimer id (5 * ((i : Int) + 1)))

/-- An execution that submits at clock reading 0, lets the driver fire once, reads,
submits again at clock reading 0 and reads again. -/
def resubmitted : List Event :=
  [Event.submit 0 0, Event.driverTimer "job:0" 5, Event.checkStatus 1 (some "job:0"),
   Event.submit 2 0, Event.checkStatus 3 (some "job:0")]

/-- An execution with one submission, two firings of its driver and a read before
and after each. -/
def readTwice : List Event :=
  [Event.checkStatus 0 (some "job:7"), Event.submit 1 7, Event.checkStatus 2 (some "job:7"),
   Event.driverTimer "job:7" 5, Event.checkStatus 3 (some "job:7"),
   Event.driverTimer "job:7" 10, Event.checkStatus 4 (some "job:7")]

/-- Job `id` has not been submitted: no entry and no pending driver timer. -/
def Unsubmitted (id : String) (s : State) : Prop :=
  s.jobs id = none ∧ pendingFor id s = []

/-- The state in which request 0 waits in a poll for the name `constructor`. -/
def waitingForConstructor : State :=
  { State.init with polls := [(0, "constructor")] }

/-! ## Job identifiers -/

theorem digitChar_toNat (d : Nat) (h : d < 10) : (Nat.digitChar d).toNat - 48 = d := by
  interval_cases d <;> rfl

theorem toDigitsCore_decimal (fuel : Nat) : ∀ (n : Nat) (ds : List Char), n < fuel →
    ∃ l, Nat.toDigitsCore 10 fuel n ds = l ++ ds ∧ decimalValue l = n := by
  induction fuel with
  | zero => intro n ds h; omega
  | succ fuel ih =>
    intro n ds h
    simp only [Nat.toDigitsCore]
    split
    · rename_i h0
      refine ⟨[Nat.digitChar (n % 10)], rfl, ?_⟩
      have hd := digitChar_toNat (n % 10) (Nat.mod_lt _ (by decide))
      simp only [decimalValue, List.foldl_cons, List.foldl_nil, hd]
      omega
    · rename_i h0
      obtain ⟨l, hl, hv⟩ := ih (n / 10) (Nat.digitChar (n % 10) :: ds) (by omega)
      refine ⟨l ++ [Nat.digitChar (n % 10)], by simp [hl], ?_⟩
      have hd := digitChar_toNat (n % 10) (Nat.mod_lt _ (by decide))
      simp only [decimalValue] at hv
      simp only [decimalValue, List.foldl_append, List.foldl_cons, List.foldl_nil, hv, hd]
      omega

theorem toDigits_decimal (n : Nat) : decimalValue (Nat.toDigits 10 n) = n := by
  obtain ⟨l, hl, hv⟩ := toDigitsCore_decimal (n + 1) n [] (by omega)
  simp only [Nat.toDigits, hl, List.append_nil, hv]

theorem natToString_injective (a b : Nat) (h : toString a = toString b) : a = b := by
  have h1 : (Nat.toDigits 10 a) = (Nat.toDigits 10 b) := by
    have := congrArg String.data h
    simpa [toString, Nat.repr, List.asString] using this
  have := congrArg decimalValue h1
  simpa [toDigits_decimal] using this

theorem jobId_injective (a b : Nat) (h : jobId a = jobId b) : a = b := by
  apply natToString_injective
  have := congrArg String.data h
  simp only [jobId, String.data_append, List.append_cancel_left_eq] at this
  exact String.ext this

theorem jobId_ne_proto (now : Nat) : jobId now ≠ "__proto__" := by
  intro h
  have := congrArg String.data h
  simp [jobId, String.data_append] at this

/-! ## The registry and the driver step -/

theorem Registry.set_same (jobs : Registry) (key : String) (v : Int)
    (h : key ≠ "__proto__") : (jobs.set key v) key = some v := by
  simp [Registry.set, h]

theorem Registry.set_other (jobs : Registry) (key k : String) (v : Int)
    (h : k ≠ key) : (jobs.set key v) k = jobs k := by
  unfold Registry.set
  split
  · rfl
  · simp [h]

theorem updateJob_jobs (id : String) (v : Int) (s : State) :
    (updateJob id v s).jobs = s.jobs.set id v := by
  unfold updateJob
  split <;> rfl

theorem updateJob_timers (id : String) (v : Int) (s : State) :
    (updateJob id v s).timers =
      if v = 100 then s.timers else s.timers ++ [(id, v + 5)] := by
  unfold updateJob
  split <;> rfl

theorem updateJob_polls (id : String) (v : Int) (s : State) :
    (updateJob id v s).polls = s.polls := by
  unfold updateJob
  split <;> rfl

theorem updateJob_sent (id : String) (v : Int) (s : State) :
    (updateJob id v s).sent = s.sent := by
  unfold updateJob
  split <;> rfl

theorem submit_jobs (r now : Nat) (s : State) :
    (submit r now s).jobs = (s.jobs.set (jobId now) 0).set (jobId now) 0 := by
  simp [submit, updateJob_jobs]

theorem submit_timers (r now : Nat) (s : State) :
    (submit r now s).timers = s.timers ++ [(jobId now, 5)] := by
  simp [submit, updateJob_timers]

theorem submit_polls (r now : Nat) (s : State) : (submit r now s).polls = s.polls := by
  simp [submit, updateJob_polls]

theorem submit_sent (r now : Nat) (s : State) :
    (submit r now s).sent = s.sent ++ [(r, { status := 200, body := framed (jobId now) })] := by
  simp [submit, updateJob_sent]

theorem checkComplete_jobs (r : Nat) (id : String) (s : State) :
    (checkComplete r id s).jobs = s.jobs := by
  unfold checkComplete
  split <;> rfl

theorem checkComplete_timers (r : Nat) (id : String) (s : State) :
    (checkComplete r id s).timers = s.timers := by
  unfold checkComplete
  split <;> rfl

theorem checkStatusLongPolling_jobs (r : Nat) (q : Option String) (s : State) :
    (checkStatusLongPolling r q s).jobs = s.jobs := by
  unfold checkStatusLongPolling
  split
  · rfl
  · exact checkComplete_jobs _ _ _

theorem checkStatusLongPolling_timers (r : Nat) (q : Option String) (s : State) :
    (checkStatusLongPolling r q s).timers = s.timers := by
  unfold checkStatusLongPolling
  split
  · rfl
  · exact checkComplete_timers _ _ _

/-! ## Executions: one driver, followed through every event -/

theorem run_append (s : State) (es fs : List Event) :
    run s (es ++ fs) = run (run s es) fs := by
  induction es generalizing s with
  | nil => rfl
  | cons e es ih => simp [run, ih]

theorem driverFirings_append (id : String) (s : State) (es fs : List Event) :
    driverFirings id s (es ++ fs) = driverFirings id s es + driverFirings id (run s es) fs := by
  induction es generalizing s with
  | nil => simp [driverFirings, run]
  | cons e es ih => simp [driverFirings, run, ih, Nat.add_assoc]

theorem pendingFor_mem (id : String) (s : State) (v : Int) :
    (id, v) ∈ pendingFor id s ↔ (id, v) ∈ s.timers := by
  simp [pendingFor, List.mem_filter]

/-- Events other than a submission of `id` and a firing of one of its timers leave
its entry and its pending timers alone; a firing moves the driver one step. -/
theorem driverAt_step (id : String) (hid : id ≠ "__proto__") (k : Nat) (s : State)
    (e : Event) (h : DriverAt id k s) (he : submitsId id e = false) :
    DriverAt id (k + if firesFor id s e then 1 else 0) (step s e) := by
  obtain ⟨hk, hj, hp⟩ := h
  cases e with
  | submit r now =>
    have hne : id ≠ jobId now := by
      intro hc
      simp [submitsId, hc] at he
    have hne2 : ¬ (jobId now = id) := fun hc => hne hc.symm
    refine ⟨by simpa [firesFor] using hk, ?_, ?_⟩
    · simp only [step, submit_jobs, firesFor]
      rw [Registry.set_other _ _ _ _ hne, Registry.set_other _ _ _ _ hne]
      simpa using hj
    · simp only [step, pendingFor, submit_timers, firesFor, List.filter_append]
      simp only [pendingFor] at hp
      simp [hp, hne2]
  | checkStatus r q =>
    exact ⟨by simpa [firesFor] using hk, by simpa [step, checkStatus, firesFor] using hj,
      by simpa [step, checkStatus, firesFor, pendingFor] using hp⟩
  | checkStatusLongPolling r q =>
    refine ⟨by simpa [firesFor] using hk, ?_, ?_⟩
    · simpa [step, checkStatusLongPolling_jobs, firesFor] using hj
    · simpa [step, pendingFor, checkStatusLongPolling_timers, firesFor] using hp
  | pollTimer r j =>
    have hf : (k + if firesFor id s (Event.pollTimer r j) then 1 else 0) = k := by
      simp [firesFor]
    rw [hf]
    by_cases hm : (r, j) ∈ s.polls
    · refine ⟨hk, ?_, ?_⟩
      · simpa [step, hm, checkComplete_jobs] using hj
      · simpa [step, hm, pendingFor, checkComplete_timers] using hp
    · simpa [step, hm] using (⟨hk, hj, hp⟩ : DriverAt id k s)
  | driverTimer j v =>
    simp only [step, firesFor]
    by_cases hmem : (j, v) ∈ s.timers
    · by_cases hj' : j = id
      · subst hj'
        have hin : (j, v) ∈ pendingFor j s := (pendingFor_mem j s v).2 hmem
        have hk20 : k < 20 := by
          by_contra hc
          simp [hp, hc] at hin
        have hv : v = 5 * ((k : Int) + 1) := by
          simpa [hp, hk20] using hin
        simp only [hmem, decide_True, Bool.and_self, if_true]
        refine ⟨by omega, ?_, ?_⟩
        · rw [updateJob_jobs, Registry.set_same _ _ _ hid, hv]
          push_cast
          ring_nf
        · have herase : pendingFor j { s with timers := s.timers.erase (j, v) } = [] := by
            simp only [pendingFor]
            rw [← List.erase_filter]
            simp only [pendingFor] at hp
            rw [hp]
            simp [hk20, hv]
          simp only [pendingFor, updateJob_timers]
          simp only [pendingFor] at herase
          by_cases h100 : v = 100
          · have : ¬ (k + 1 < 20) := by omega
            rw [if_pos h100, if_neg this]
            exact herase
          · have : k + 1 < 20 := by omega
            simp only [h100, if_false, List.filter_append, herase, this, if_true]
            simp [hv]
            ring
      · have hne : id ≠ j := fun hc => hj' hc.symm
        simp only [hmem, hj', decide_False, Bool.false_and, if_false, Nat.add_zero,
          if_true]
        refine ⟨hk, ?_, ?_⟩
        · rw [updateJob_jobs, Registry.set_other _ _ _ _ hne]
          exact hj
        · simp only [pendingFor, updateJob_timers]
          have herase : (s.timers.erase (j, v)).filter (fun p => decide (p.1 = id)) =
              s.timers.filter (fun p => decide (p.1 = id)) := by
            rw [← List.erase_filter]
            apply List.erase_of_not_mem
            simp [List.mem_filter, hj']
          simp only [pendingFor] at hp
          split
          · simp [herase, hp]
          · simp [List.filter_append, herase, hp, hj']
    · simp only [hmem, decide_False, Bool.and_false, if_false, Nat.add_zero]
      exact ⟨hk, hj, hp⟩

theorem submissions_cons (id : String) (e : Event) (es : List Event) :
    submissions id (e :: es) = 0 ↔ submitsId id e = false ∧ submissions id es = 0 := by
  unfold submissions
  rw [List.countP_cons]
  cases submitsId id e <;> simp

theorem submissions_append (id : String) (es fs : List Event) :
    submissions id (es ++ fs) = submissions id es + submissions id fs := by
  simp [submissions, List.countP_append]

theorem driverAt_run (id : String) (hid : id ≠ "__proto__") (es : List Event) :
    ∀ (k : Nat) (s : State), DriverAt id k s → submissions id es = 0 →
      DriverAt id (k + driverFirings id s es) (run s es) := by
  induction es with
  | nil => intro k s h _; simpa [driverFirings, run] using h
  | cons e es ih =>
    intro k s h hs
    obtain ⟨he, hes⟩ := (submissions_cons id e es).1 hs
    have h1 := ih _ _ (driverAt_step id hid k s e h he) hes
    simpa [driverFirings, run, Nat.add_assoc] using h1

theorem submit_driverAt (r now : Nat) (s : State)
    (hfresh : ∀ v, (jobId now, v) ∉ s.timers) : DriverAt (jobId now) 0 (submit r now s) := by
  refine ⟨by omega, ?_, ?_⟩
  · rw [submit_jobs, Registry.set_same _ _ _ (jobId_ne_proto now)]
    rfl
  · have h0 : s.timers.filter (fun p => decide (p.1 = jobId now)) = [] := by
      rw [List.filter_eq_nil_iff]
      rintro ⟨a, v⟩ hmem
      simp only [decide_eq_true_eq]
      rintro rfl
      exact hfresh v hmem
    simp [pendingFor, submit_timers, List.filter_append, h0]

/-- C1: a job created by `submit` whose identifier no other submission uses has
stored progress `5 * k` after `k` firings of its driver timers, and `k` is at
most 20; the progress is 100 exactly when `k` is 20; below 20 exactly one timer
is pending, for the next value, and its firing is the next firing; at 20 no timer
of the job is pending, and whatever happens afterwards the stored value stays 100
with no timer of the job pending and no further firing. -/
theorem driver_progress_after_firings (s0 : State) (r now : Nat) (es : List Event)
    (hfresh : ∀ v, (jobId now, v) ∉ s0.timers)
    (hunique : submissions (jobId now) es = 0) :
    driverFirings (jobId now) (submit r now s0) es ≤ 20 ∧
    (run (submit r now s0) es).jobs (jobId now) =
      some (5 * (driverFirings (jobId now) (submit r now s0) es : Int)) ∧
    ((run (submit r now s0) es).jobs (jobId now) = some 100 ↔
      driverFirings (jobId now) (submit r now s0) es = 20) ∧
    (driverFirings (jobId now) (submit r now s0) es < 20 →
      pendingFor (jobId now) (run (submit r now s0) es) =
        [(jobId now, 5 * ((driverFirings (jobId now) (submit r now s0) es : Int) + 1))] ∧
      driverFirings (jobId now) (submit r now s0)
        (es ++ [Event.driverTimer (jobId now)
          (5 * ((driverFirings (jobId now) (submit r now s0) es : Int) + 1))]) =
        driverFirings (jobId now) (submit r now s0) es + 1) ∧
    (driverFirings (jobId now) (submit r now s0) es = 20 →
      pendingFor (jobId now) (run (submit r now s0) es) = [] ∧
      ∀ fs : List Event, submissions (jobId now) fs = 0 →
        (run (submit r now s0) (es ++ fs)).jobs (jobId now) = some 100 ∧
        pendingFor (jobId now) (run (submit r now s0) (es ++ fs)) = [] ∧
        driverFirings (jobId now) (submit r now s0) (es ++ fs) = 20) := by
  have hid := jobId_ne_proto now
  have h0 := submit_driverAt r now s0 hfresh
  have h := driverAt_run (jobId now) hid es 0 _ h0 hunique
  rw [Nat.zero_add] at h
  obtain ⟨hk, hj, hp⟩ := h
  refine ⟨hk, hj, ?_, ?_, ?_⟩
  · rw [hj]
    constructor
    · intro h100
      have := Option.some.inj h100
      omega
    · intro h20
      rw [h20]
      rfl
  · intro hlt
    rw [if_pos hlt] at hp
    refine ⟨hp, ?_⟩
    rw [driverFirings_append]
    have hmem : (jobId now, 5 * ((driverFirings (jobId now) (submit r now s0) es : Int) + 1)) ∈
        (run (submit r now s0) es).timers := by
      rw [← pendingFor_mem, hp]
      exact List.mem_singleton.2 rfl
    simp [driverFirings, firesFor, hmem]
  · intro h20
    have hnot : ¬ driverFirings (jobId now) (submit r now s0) es < 20 := by omega
    rw [if_neg hnot] at hp
    refine ⟨hp, ?_⟩
    intro fs hfs
    have hall : submissions (jobId now) (es ++ fs) = 0 := by
      rw [submissions_append, hunique, hfs]
    have h' := driverAt_run (jobId now) hid (es ++ fs) 0 _ h0 hall
    rw [Nat.zero_add] at h'
    obtain ⟨hk', hj', hp'⟩ := h'
    have hge : driverFirings (jobId now) (submit r now s0) (es ++ fs) = 20 := by
      have := driverFirings_append (jobId now) (submit r now s0) es fs
      omega
    rw [hge] at hj' hp'
    exact ⟨by simpa using hj', by simpa using hp', hge⟩

/-- C1 at a concrete execution: a fresh server, one submission at clock reading 0
and twenty firings of the driver of `job:0`. -/
theorem driver_progress_after_firings_witness :
    (∀ v, (jobId 0, v) ∉ State.init.timers) ∧
    submissions (jobId 0) (firings (jobId 0) 20) = 0 ∧
    driverFirings (jobId 0) (submit 0 0 State.init) (firings (jobId 0) 20) = 20 ∧
    (run (submit 0 0 State.init) (firings (jobId 0) 20)).jobs (jobId 0) = some 100 :=
  ⟨fun _ h => (nomatch h), by decide, by decide,
    ((driver_progress_after_firings State.init 0 0 (firings (jobId 0) 20)
      (fun _ h => (nomatch h)) (by decide)).2.2.1).2 (by decide)⟩

/-! ## Immediate-mode reads -/

theorem unsubmitted_step (id : String) (s : State) (e : Event)
    (h : Unsubmitted id s) (he : submitsId id e = false) : Unsubmitted id (step s e) := by
  obtain ⟨hj, hp⟩ := h
  cases e with
  | submit r now =>
    have hne : id ≠ jobId now := by
      intro hc
      simp [submitsId, hc] at he
    have hne2 : ¬ (jobId now = id) := fun hc => hne hc.symm
    refine ⟨?_, ?_⟩
    · simp only [step, submit_jobs]
      rw [Registry.set_other _ _ _ _ hne, Registry.set_other _ _ _ _ hne]
      exact hj
    · simp only [step, pendingFor, submit_timers, List.filter_append]
      simp only [pendingFor] at hp
      simp [hp, hne2]
  | checkStatus r q =>
    exact ⟨by simpa [step, checkStatus] using hj,
      by simpa [step, checkStatus, pendingFor] using hp⟩
  | checkStatusLongPolling r q =>
    exact ⟨by simpa [step, checkStatusLongPolling_jobs] using hj,
      by simpa [step, pendingFor, checkStatusLongPolling_timers] using hp⟩
  | pollTimer r j =>
    by_cases hm : (r, j) ∈ s.polls
    · exact ⟨by simpa [step, hm, checkComplete_jobs] using hj,
        by simpa [step, hm, pendingFor, checkComplete_timers] using hp⟩
    · simpa [step, hm] using (⟨hj, hp⟩ : Unsubmitted id s)
  | driverTimer j v =>
    by_cases hmem : (j, v) ∈ s.timers
    · have hj' : ¬ (j = id) := by
        rintro rfl
        have := (pendingFor_mem j s v).2 hmem
        simp [hp] at this
      have hne : id ≠ j := fun hc => hj' hc.symm
      simp only [step, hmem, if_true]
      refine ⟨?_, ?_⟩
      · rw [updateJob_jobs, Registry.set_other _ _ _ _ hne]
        exact hj
      · simp only [pendingFor, updateJob_timers]
        have herase : (s.timers.erase (j, v)).filter (fun p => decide (p.1 = id)) =
            s.timers.filter (fun p => decide (p.1 = id)) := by
          rw [← List.erase_filter]
          apply List.erase_of_not_mem
          simp [List.mem_filter, hj']
        simp only [pendingFor] at hp
        split
        · simp [herase, hp]
        · simp [List.filter_append, herase, hp, hj']
    · simpa [step, hmem] using (⟨hj, hp⟩ : Unsubmitted id s)

theorem progressReads_cons (id : String) (s : State) (e : Event) (es : List Event) :
    progressReads id s (e :: es) =
      (progressRead id s e).toList ++ progressReads id (step s e) es := by
  simp only [progressReads, readValues, progressRead, List.filterMap_append]
  by_cases h : readsId id e
  · cases hv : (s.jobs.get id).number <;> simp [h, hv, List.filterMap_cons]
  · simp [h]

theorem progressRead_driverAt (id : String) (k : Nat) (s : State) (e : Event) (n : Int)
    (h : DriverAt id k s) (hr : progressRead id s e = some n) : n = 5 * (k : Int) := by
  obtain ⟨_, hj, _⟩ := h
  have hg : s.jobs.get id = JSVal.num (5 * (k : Int)) := by simp [Registry.get, hj]
  by_cases hq : readsId id e
  · simp only [progressRead, hq, if_true, hg, JSVal.number] at hr
    exact (Option.some.inj hr).symm
  · simp [progressRead, hq] at hr

theorem progressRead_unsubmitted (id : String) (s : State) (e : Event)
    (h : Unsubmitted id s) : progressRead id s e = none := by
  obtain ⟨hj, _⟩ := h
  by_cases hq : readsId id e
  · by_cases hm : id ∈ objectPrototypeNames <;>
      simp [progressRead, hq, Registry.get, hj, hm, JSVal.number]
  · simp [progressRead, hq]

/-- The responses to the immediate-mode reads are the answers that carry the
values read. -/
theorem readResponses_eq (id : String) (es : List Event) :
    ∀ s : State, readResponses id s es = (readValues id s es).map answer := by
  induction es with
  | nil => intro s; rfl
  | cons e es ih =>
    intro s
    simp only [readResponses, readValues, List.map_append, ih]
    congr 1
    cases e with
    | checkStatus r q =>
      by_cases hq : queryKey q = id
      · simp [readsId, hq, responsesOf, step, checkStatus, answer]
      · simp [readsId, hq]
    | submit r now => simp [readsId]
    | checkStatusLongPolling r q => simp [readsId]
    | driverTimer j v => simp [readsId]
    | pollTimer r j => simp [readsId]

theorem inRange_init : InRange State.init :=
  ⟨fun _ _ h => (nomatch h), fun _ h => (nomatch h)⟩

theorem inRange_updateJob (id : String) (v : Int) (s : State) (h : InRange s)
    (hid : ∃ now, id = jobId now) (h5 : 5 ∣ v) (h0 : 0 ≤ v) (h100 : v ≤ 100) :
    InRange (updateJob id v s) := by
  obtain ⟨hj, ht⟩ := h
  refine ⟨?_, ?_⟩
  · intro k n hk
    rw [updateJob_jobs] at hk
    by_cases hki : k = id
    · obtain ⟨now, rfl⟩ := hid
      rw [hki, Registry.set_same _ _ _ (jobId_ne_proto now)] at hk
      have := Option.some.inj hk
      omega
    · rw [Registry.set_other _ _ _ _ hki] at hk
      exact hj k n hk
  · intro p hp
    rw [updateJob_timers] at hp
    by_cases hv : v = 100
    · rw [if_pos hv] at hp
      exact ht p hp
    · rw [if_neg hv] at hp
      rcases List.mem_append.1 hp with hp | hp
      · exact ht p hp
      · rw [List.mem_singleton.1 hp]
        obtain ⟨now, rfl⟩ := hid
        exact ⟨⟨now, rfl⟩, by omega, by omega, by omega⟩

theorem inRange_step (s : State) (e : Event) (h : InRange s) : InRange (step s e) := by
  cases e with
  | submit r now =>
    have h1 : InRange { s with jobs := s.jobs.set (jobId now) 0 } := by
      refine ⟨?_, h.2⟩
      intro k n hk
      by_cases hki : k = jobId now
      · simp only [hki, Registry.set_same _ _ _ (jobId_ne_proto now)] at hk
        have := Option.some.inj hk
        omega
      · simp only [Registry.set_other _ _ _ _ hki] at hk
        exact h.1 k n hk
    have h2 := inRange_updateJob (jobId now) 0 _ h1 ⟨now, rfl⟩ (by decide) (by decide)
      (by decide)
    exact ⟨h2.1, h2.2⟩
  | checkStatus r q => exact ⟨h.1, h.2⟩
  | checkStatusLongPolling r q =>
    refine ⟨?_, ?_⟩
    · simpa [step, checkStatusLongPolling_jobs] using h.1
    · simpa [step, checkStatusLongPolling_timers] using h.2
  | pollTimer r j =>
    by_cases hm : (r, j) ∈ s.polls
    · refine ⟨?_, ?_⟩
      · simpa [step, hm, checkComplete_jobs] using h.1
      · simpa [step, hm, checkComplete_timers] using h.2
    · simpa [step, hm] using h
  | driverTimer j v =>
    by_cases hmem : (j, v) ∈ s.timers
    · obtain ⟨hid, h5, h0, h100⟩ := h.2 (j, v) hmem
      have h1 : InRange { s with timers := s.timers.erase (j, v) } :=
        ⟨h.1, fun p hp => h.2 p (List.mem_of_mem_erase hp)⟩
      simpa [step, hmem] using inRange_updateJob j v _ h1 hid h5 h0 h100
    · simpa [step, hmem] using h

theorem inRange_run (es : List Event) : ∀ s : State, InRange s → InRange (run s es) := by
  induction es with
  | nil => intro s h; exact h
  | cons e es ih => intro s h; exact ih _ (inRange_step s e h)

theorem progressRead_inRange (id : String) (s : State) (e : Event) (n : Int)
    (h : InRange s) (hr : progressRead id s e = some n) : 0 ≤ n ∧ n ≤ 100 := by
  by_cases hq : readsId id e
  · simp only [progressRead, hq, if_true, Registry.get] at hr
    cases hj : s.jobs id with
    | none =>
      rw [hj] at hr
      by_cases hm : id ∈ objectPrototypeNames <;> simp [hm, JSVal.number] at hr
    | some m =>
      rw [hj] at hr
      simp only [JSVal.number] at hr
      rw [← Option.some.inj hr]
      exact h.1 id m hj
  · simp [progressRead, hq] at hr

theorem reads_inRange (id : String) (es : List Event) :
    ∀ s : State, InRange s → ∀ x ∈ progressReads id s es, 0 ≤ x ∧ x ≤ 100 := by
  induction es with
  | nil => intro s _ x hx; simp [progressReads, readValues] at hx
  | cons e es ih =>
    intro s h x hx
    rw [progressReads_cons] at hx
    rcases List.mem_append.1 hx with hx | hx
    · exact progressRead_inRange id s e x h (by simpa using hx)
    · exact ih _ (inRange_step s e h) x hx

theorem reads_of_driverAt (id : String) (hid : id ≠ "__proto__") (es : List Event) :
    ∀ (k : Nat) (s : State), DriverAt id k s → submissions id es = 0 →
      (progressReads id s es).Pairwise (· ≤ ·) ∧
      ∀ x ∈ progressReads id s es, 5 * (k : Int) ≤ x := by
  induction es with
  | nil => intro k s _ _; simp [progressReads, readValues]
  | cons e es ih =>
    intro k s h hs
    obtain ⟨he, hes⟩ := (submissions_cons id e es).1 hs
    obtain ⟨hpw, hb⟩ := ih _ _ (driverAt_step id hid k s e h he) hes
    have hb' : ∀ x ∈ progressReads id (step s e) es, 5 * (k : Int) ≤ x := by
      intro x hx
      have h1 := hb x hx
      push_cast at h1
      split at h1 <;> omega
    rw [progressReads_cons]
    cases hr : progressRead id s e with
    | none => exact ⟨by simpa using hpw, by simpa using hb'⟩
    | some n =>
      have hn := progressRead_driverAt id k s e n h hr
      simp only [Option.toList, List.singleton_append]
      refine ⟨List.pairwise_cons.2 ⟨fun x hx => ?_, hpw⟩, ?_⟩
      · rw [hn]
        exact hb' x hx
      · intro x hx
        rcases List.mem_cons.1 hx with rfl | hx
        · rw [hn]
        · exact hb' x hx

theorem reads_of_unsubmitted (id : String) (es : List Event) :
    ∀ s : State, Unsubmitted id s → submissions id es ≤ 1 →
      (progressReads id s es).Pairwise (· ≤ ·) := by
  induction es with
  | nil => intro s _ _; simp [progressReads, readValues]
  | cons e es ih =>
    intro s h hs
    have hr := progressRead_unsubmitted id s e h
    rw [progressReads_cons, hr]
    simp only [Option.toList, List.nil_append]
    cases he : submitsId id e with
    | false =>
      apply ih _ (unsubmitted_step id s e h he)
      simpa [submissions, List.countP_cons, he] using hs
    | true =>
      have hes : submissions id es = 0 := by
        simp only [submissions, List.countP_cons, he, if_true] at hs
        simp only [submissions]
        omega
      cases e with
      | submit r now =>
        have hid : jobId now = id := by simpa [submitsId] using he
        subst hid
        have hfresh : ∀ v, (jobId now, v) ∉ s.timers := by
          intro v hv
          have := (pendingFor_mem (jobId now) s v).2 hv
          simp [h.2] at this
        have h0 := submit_driverAt r now s hfresh
        exact (reads_of_driverAt (jobId now) (jobId_ne_proto now) es 0 _ h0 hes).1
      | checkStatus r q => simp [submitsId] at he
      | checkStatusLongPolling r q => simp [submitsId] at he
      | driverTimer j v => simp [submitsId] at he
      | pollTimer r j => simp [submitsId] at he

/-- C2 as stated fails: when a second submission reads the same clock value as an
earlier one, it stores 0 under the same identifier, and an immediate-mode read
that was answered 5 is followed by one that is answered 0. -/
theorem reads_decrease_after_resubmission :
    readResponses "job:0" State.init resubmitted =
      [{ status := 200, body := "\n\n5\n\n" }, { status := 200, body := "\n\n0\n\n" }] ∧
    progressReads "job:0" State.init resubmitted = [5, 0] ∧
    ¬ (progressReads "job:0" State.init resubmitted).Pairwise (· ≤ ·) := by
  decide

/-- C2, amended: in every execution from server start and for every identifier,
the immediate-mode reads of it are answered with status 200 and the text of the
value `jobs[id]` holds, and every progress value among these lies in [0, 100];
for an identifier that at most one submission of the execution builds, the
progress values returned by successive reads are non-decreasing. -/
theorem reads_nondecreasing_bounded (id : String) (es : List Event) :
    readResponses id State.init es = (readValues id State.init es).map answer ∧
    (∀ x ∈ progressReads id State.init es, 0 ≤ x ∧ x ≤ 100) ∧
    (submissions id es ≤ 1 → (progressReads id State.init es).Pairwise (· ≤ ·)) :=
  ⟨readResponses_eq id es State.init, reads_inRange id es State.init inRange_init,
    reads_of_unsubmitted id es State.init ⟨rfl, rfl⟩⟩

/-- C2, amended, at a concrete execution: a read before the submission is
answered `undefined`, the reads after it and after each of two driver firings
are answered 0, 5 and 10. -/
theorem reads_nondecreasing_bounded_witness :
    submissions "job:7" readTwice ≤ 1 ∧
    readResponses "job:7" State.init readTwice =
      [{ status := 200, body := "\n\nundefined\n\n" }, { status := 200, body := "\n\n0\n\n" },
       { status := 200, body := "\n\n5\n\n" }, { status := 200, body := "\n\n10\n\n" }] ∧
    progressReads "job:7" State.init readTwice = [0, 5, 10] ∧
    (progressReads "job:7" State.init readTwice).Pairwise (· ≤ ·) :=
  ⟨by decide, by decide, by decide,
    (reads_nondecreasing_bounded "job:7" readTwice).2.2 (by decide)⟩

/-! ## The long-polling endpoint -/

theorem get_of_entry (jobs : Registry) (key : String) (n : Int) (h : jobs key = some n) :
    jobs.get key = JSVal.num n := by
  simp [Registry.get, h]

/-- C3, the code at a job that has just been submitted: the entry is present with
progress 0, and the long-polling handler answers 404 `Job not found` for it and
schedules no poll. -/
theorem longPolling_rejects_fresh_job (s : State) (r now r' : Nat) :
    (submit r now s).jobs (jobId now) = some 0 ∧
    (checkStatusLongPolling r' (some (jobId now)) (submit r now s)).sent =
      (submit r now s).sent ++ [(r', { status := 404, body := "Job not found" })] ∧
    (checkStatusLongPolling r' (some (jobId now)) (submit r now s)).polls =
      (submit r now s).polls := by
  have h0 : (submit r now s).jobs (jobId now) = some 0 := by
    rw [submit_jobs, Registry.set_same _ _ _ (jobId_ne_proto now)]
  have hg := get_of_entry _ _ _ h0
  refine ⟨h0, ?_, ?_⟩ <;>
    simp [checkStatusLongPolling, queryKey, hg, JSVal.truthy]

/-- The part of the long-polling contract that the code keeps: for a job whose
stored progress is a number other than 0, the handler does not answer 404; below
100 it sends nothing and schedules one poll, from 100 on it sends the stored
value once and schedules nothing. -/
theorem longPolling_waits_for_started_job (s : State) (r : Nat) (id : String) (n : Int)
    (hid : id ≠ "") (hn : n ≠ 0) (hj : s.jobs id = some n) :
    (n < 100 → (checkStatusLongPolling r (some id) s).sent = s.sent ∧
      (checkStatusLongPolling r (some id) s).polls = s.polls ++ [(r, id)]) ∧
    (100 ≤ n → (checkStatusLongPolling r (some id) s).sent =
        s.sent ++ [(r, { status := 200, body := framed (toString n) })] ∧
      (checkStatusLongPolling r (some id) s).polls = s.polls) := by
  have hg := get_of_entry _ _ _ hj
  constructor
  · intro hlt
    have : ¬ (100 ≤ n) := by omega
    simp [checkStatusLongPolling, checkComplete, queryKey, queryFalsy, hg, JSVal.truthy,
      JSVal.geHundred, JSVal.render, hid, hn, this]
  · intro hge
    simp [checkStatusLongPolling, checkComplete, queryKey, queryFalsy, hg, JSVal.truthy,
      JSVal.geHundred, JSVal.render, hid, hn, hge]

/-- One run of `checkComplete` for a job whose stored progress is the number `n`:
below 100 it sends nothing and schedules itself once more, from 100 on it sends
the stored value and schedules nothing. -/
theorem checkComplete_of_entry (s : State) (r : Nat) (id : String) (n : Int)
    (hj : s.jobs id = some n) :
    checkComplete r id s =
      if 100 ≤ n then
        { s with sent := s.sent ++ [(r, { status := 200, body := framed (toString n) })] }
      else { s with polls := s.polls ++ [(r, id)] } := by
  have hg := get_of_entry _ _ _ hj
  by_cases h : 100 ≤ n <;> simp [checkComplete, hg, JSVal.geHundred, JSVal.render, h]

theorem waitingForConstructor_step :
    step waitingForConstructor (Event.pollTimer 0 "constructor") = waitingForConstructor := by
  rfl

/-- C4, the code at a name that is no key of the registry but that `jobs` inherits
from `Object.prototype`: on a fresh server the long-polling handler, asked for
`constructor`, sends no 404 and schedules a poll, and however many times that
poll fires, nothing is sent and the poll is pending again. -/
theorem longPolling_polls_inherited_name (n : Nat) :
    State.init.jobs "constructor" = none ∧
    checkStatusLongPolling 0 (some "constructor") State.init = waitingForConstructor ∧
    (run (checkStatusLongPolling 0 (some "constructor") State.init)
        (List.replicate n (Event.pollTimer 0 "constructor"))).sent = [] ∧
    (run (checkStatusLongPolling 0 (some "constructor") State.init)
        (List.replicate n (Event.pollTimer 0 "constructor"))).polls = [(0, "constructor")] := by
  have h1 : checkStatusLongPolling 0 (some "constructor") State.init = waitingForConstructor :=
    rfl
  have h2 : run waitingForConstructor (List.replicate n (Event.pollTimer 0 "constructor")) =
      waitingForConstructor := by
    induction n with
    | zero => rfl
    | succ n ih => rw [List.replicate_succ, run, waitingForConstructor_step, ih]
  refine ⟨rfl, h1, ?_, ?_⟩ <;> rw [h1, h2] <;> rfl

/-- The part of the not-found contract that the code keeps: when the parameter is
absent, or `jobs` has no property of that name (own or inherited), the handler
answers 404 `Job not found` at once and schedules no poll. -/
theorem longPolling_404_of_no_property (s : State) (r : Nat) (q : Option String)
    (h : q = none ∨ s.jobs.get (queryKey q) = JSVal.undefined) :
    checkStatusLongPolling r q s =
      { s with sent := s.sent ++ [(r, { status := 404, body := "Job not found" })] } := by
  rcases h with rfl | h
  · simp [checkStatusLongPolling, queryFalsy]
  · simp [checkStatusLongPolling, h, JSVal.truthy]

/-! ## The immediate-mode endpoint -/

/-- C5, the code at an unknown job: on a fresh server the immediate-mode handler
answers a request for `job:1` with status 200 and the text `undefined` between
blank lines; and in every state, for every request, the one response it sends has
status 200. -/
theorem checkStatus_unknown_job_succeeds :
    State.init.jobs "job:1" = none ∧
    (checkStatus 0 (some "job:1") State.init).sent =
      [(0, { status := 200, body := "\n\nundefined\n\n" })] ∧
    ∀ (s : State) (r : Nat) (q : Option String),
      ∃ body, (checkStatus r q s).sent = s.sent ++ [(r, { status := 200, body := body })] :=
  ⟨rfl, by decide, fun _ _ _ => ⟨_, rfl⟩⟩

/-! ## Submission -/

theorem zero_step (now : Nat) (s : State) (e : Event)
    (h : s.jobs (jobId now) = some 0) (he : isDriverTimer e = false) :
    (step s e).jobs (jobId now) = some 0 := by
  cases e with
  | submit r t =>
    simp only [step, submit_jobs]
    by_cases ht : jobId now = jobId t
    · rw [ht, Registry.set_same _ _ _ (jobId_ne_proto t)]
    · rw [Registry.set_other _ _ _ _ ht, Registry.set_other _ _ _ _ ht]
      exact h
  | checkStatus r q => exact h
  | checkStatusLongPolling r q => simpa [step, checkStatusLongPolling_jobs] using h
  | pollTimer r j =>
    by_cases hm : (r, j) ∈ s.polls
    · simpa [step, hm, checkComplete_jobs] using h
    · simpa [step, hm] using h
  | driverTimer j v => simp [isDriverTimer] at he

theorem zero_run (now : Nat) (es : List Event) :
    ∀ s : State, s.jobs (jobId now) = some 0 → (∀ e ∈ es, isDriverTimer e = false) →
      (run s es).jobs (jobId now) = some 0 := by
  induction es with
  | nil => intro s h _; exact h
  | cons e es ih =>
    intro s h hq
    exact ih _ (zero_step now s e h (hq e (List.mem_cons_self _ _)))
      (fun e' he' => hq e' (List.mem_cons_of_mem _ he'))

/-- C6: in every state and for every clock reading `now`, `submit` answers with
the identifier `job:` followed by `now`, between blank lines, and leaves the
identifier mapped to 0; after any further events, none of them the firing of a
driver timer, an immediate-mode `checkStatus` for the identifier answers 0. -/
theorem submit_then_check_reads_zero (s : State) (r now r' : Nat) (es : List Event)
    (hquiet : ∀ e ∈ es, isDriverTimer e = false) :
    (submit r now s).sent =
      s.sent ++ [(r, { status := 200, body := "\n\n" ++ jobId now ++ "\n\n" })] ∧
    jobId now = "job:" ++ toString now ∧
    (submit r now s).jobs (jobId now) = some 0 ∧
    (checkStatus r' (some (jobId now)) (run (submit r now s) es)).sent =
      (run (submit r now s) es).sent ++ [(r', { status := 200, body := "\n\n0\n\n" })] := by
  have h0 : (submit r now s).jobs (jobId now) = some 0 := by
    rw [submit_jobs, Registry.set_same _ _ _ (jobId_ne_proto now)]
  have h1 := zero_run now es _ h0 hquiet
  refine ⟨submit_sent r now s, rfl, h0, ?_⟩
  simp only [checkStatus, queryKey, get_of_entry _ _ _ h1]
  rfl

/-- C6 at a concrete execution: a submission at clock reading 0, then a long-poll
and another submission, then the immediate-mode read. -/
theorem submit_then_check_reads_zero_witness :
    (∀ e ∈ [Event.checkStatusLongPolling 5 (some "job:0"), Event.submit 6 1],
      isDriverTimer e = false) ∧
    (submit 0 0 State.init).sent = [(0, { status := 200, body := "\n\njob:0\n\n" })] ∧
    (checkStatus 7 (some (jobId 0)) (run (submit 0 0 State.init)
      [Event.checkStatusLongPolling 5 (some "job:0"), Event.submit 6 1])).sent =
      (run (submit 0 0 State.init)
        [Event.checkStatusLongPolling 5 (some "job:0"), Event.submit 6 1]).sent ++
        [(7, { status := 200, body := "\n\n0\n\n" })] :=
  ⟨by decide, by decide,
    (submit_then_check_reads_zero State.init 0 0 7
      [Event.checkStatusLongPolling 5 (some "job:0"), Event.submit 6 1] (by decide)).2.2.2⟩

/-- C7 as stated fails: two submissions that read the same clock value are answered
with the same identifier, and both drivers work on the one entry. -/
theorem submissions_same_clock_share_id :
    (run State.init [Event.submit 0 0, Event.submit 1 0]).sent =
      [(0, { status := 200, body := "\n\njob:0\n\n" }),
       (1, { status := 200, body := "\n\njob:0\n\n" })] ∧
    (run State.init [Event.submit 0 0, Event.submit 1 0]).timers =
      [("job:0", 5), ("job:0", 5)] := by
  decide

/-- C7, amended: two submissions that read different clock values are answered
with different identifiers, and each has its own entry and driver: handling the
one leaves the entry and the pending timers of the other as they are. -/
theorem submissions_distinct_clock_distinct_id (r₁ r₂ t₁ t₂ : Nat) (s₁ s₂ : State)
    (hclock : t₁ ≠ t₂) :
    (submit r₁ t₁ s₁).sent = s₁.sent ++ [(r₁, { status := 200, body := framed (jobId t₁) })] ∧
    (submit r₂ t₂ s₂).sent = s₂.sent ++ [(r₂, { status := 200, body := framed (jobId t₂) })] ∧
    jobId t₁ ≠ jobId t₂ ∧
    (submit r₂ t₂ s₂).jobs (jobId t₁) = s₂.jobs (jobId t₁) ∧
    pendingFor (jobId t₁) (submit r₂ t₂ s₂) = pendingFor (jobId t₁) s₂ ∧
    (submit r₂ t₂ s₂).jobs (jobId t₂) = some 0 := by
  have hne : jobId t₁ ≠ jobId t₂ := fun h => hclock (jobId_injective _ _ h)
  have hne2 : ¬ (jobId t₂ = jobId t₁) := fun h => hne h.symm
  refine ⟨submit_sent _ _ _, submit_sent _ _ _, hne, ?_, ?_, ?_⟩
  · rw [submit_jobs, Registry.set_other _ _ _ _ hne, Registry.set_other _ _ _ _ hne]
  · simp [pendingFor, submit_timers, List.filter_append, hne2]
  · rw [submit_jobs, Registry.set_same _ _ _ (jobId_ne_proto t₂)]

/-- C7, amended, at clock readings 0 and 1 on a fresh server. -/
theorem submissions_distinct_clock_distinct_id_witness :
    (0 : Nat) ≠ 1 ∧ jobId 0 ≠ jobId 1 ∧
    (submit 1 1 (submit 0 0 State.init)).jobs (jobId 0) = some 0 ∧
    (submit 1 1 (submit 0 0 State.init)).jobs (jobId 1) = some 0 :=
  ⟨by decide,
    (submissions_distinct_clock_distinct_id 0 1 0 1 State.init (submit 0 0 State.init)
      (by decide)).2.2.1,
    by decide, by decide⟩

/-! ## Frame conditions -/

/-- C8: one driver step `updateJob(a, v)` leaves the entry of every other
identifier `b` as it is (its presence, its progress and what `jobs[b]` reads), it
schedules no timer but for `a`, and it touches neither the pending polls nor the
responses. -/
theorem updateJob_touches_only_its_job (s : State) (a b : String) (v : Int)
    (hb : b ≠ a) :
    (updateJob a v s).jobs b = s.jobs b ∧
    (updateJob a v s).jobs.get b = s.jobs.get b ∧
    (∃ new, (updateJob a v s).timers = s.timers ++ new ∧ ∀ x ∈ new, x.1 = a) ∧
    pendingFor b (updateJob a v s) = pendingFor b s ∧
    (updateJob a v s).polls = s.polls ∧
    (updateJob a v s).sent = s.sent := by
  have hj : (updateJob a v s).jobs b = s.jobs b := by
    rw [updateJob_jobs, Registry.set_other _ _ _ _ hb]
  have hab : ¬ (a = b) := fun h => hb h.symm
  refine ⟨hj, ?_, ?_, ?_, updateJob_polls a v s, updateJob_sent a v s⟩
  · simp only [Registry.get, hj]
  · rw [updateJob_timers]
    by_cases h : v = 100
    · exact ⟨[], by simp [h], by simp⟩
    · exact ⟨[(a, v + 5)], by simp [h], by simp⟩
  · rw [pendingFor, updateJob_timers]
    by_cases h : v = 100
    · simp [h, pendingFor]
    · simp [h, pendingFor, List.filter_append, hab]

/-- C8 at a concrete state: with jobs `job:0` and `job:1` submitted, a driver step
of `job:0` leaves `job:1` at 0 with its one timer. -/
theorem updateJob_touches_only_its_job_witness :
    "job:1" ≠ "job:0" ∧
    (updateJob "job:0" 5 (submit 1 1 (submit 0 0 State.init))).jobs "job:1" = some 0 ∧
    (updateJob "job:0" 5 (submit 1 1 (submit 0 0 State.init))).jobs "job:0" = some 5 ∧
    pendingFor "job:1" (updateJob "job:0" 5 (submit 1 1 (submit 0 0 State.init))) =
      pendingFor "job:1" (submit 1 1 (submit 0 0 State.init)) :=
  ⟨by decide, by decide, by decide,
    (updateJob_touches_only_its_job (submit 1 1 (submit 0 0 State.init)) "job:0" "job:1" 5
      (by decide)).2.2.2.1⟩

/-- C9: the immediate-mode handler, the long-polling handler (its 404 branch
included) and every run of `checkComplete`, at the request or when a poll timer
fires, leave the registry exactly as they found it, whatever the requested
identifier. -/
theorem status_handlers_leave_registry (s : State) (r : Nat) (q : Option String)
    (id : String) :
    (checkStatus r q s).jobs = s.jobs ∧
    (checkStatusLongPolling r q s).jobs = s.jobs ∧
    (checkComplete r id s).jobs = s.jobs ∧
    (step s (Event.checkStatus r q)).jobs = s.jobs ∧
    (step s (Event.checkStatusLongPolling r q)).jobs = s.jobs ∧
    (step s (Event.pollTimer r id)).jobs = s.jobs := by
  refine ⟨rfl, checkStatusLongPolling_jobs r q s, checkComplete_jobs r id s, rfl,
    checkStatusLongPolling_jobs r q s, ?_⟩
  by_cases hm : (r, id) ∈ s.polls
  · simp [step, hm, checkComplete_jobs]
  · simp [step, hm]

/-! ## The driver step -/

/-- C10: for every call `updateJob(id, v)` the program makes, if `v` equals or
exceeds 100 the step writes exactly 100 to the entry of `id` and schedules no
further step; otherwise it writes `v` and schedules exactly one further step,
with the value `v + 5`. -/
theorem updateJob_stops_at_100_or_reschedules (id : String) (v : Int) (s : State)
    (hcall : DriverCall id v) :
    (100 ≤ v → (updateJob id v s).jobs id = some 100 ∧
      (updateJob id v s).timers = s.timers) ∧
    (v < 100 → (updateJob id v s).jobs id = some v ∧
      (updateJob id v s).timers = s.timers ++ [(id, v + 5)]) := by
  have hfacts : (∃ now, id = jobId now) ∧ v ≤ 100 := by
    rcases hcall with ⟨now, hid, hv⟩ | ⟨es, hmem⟩
    · exact ⟨⟨now, hid⟩, by omega⟩
    · obtain ⟨⟨now, hid⟩, _, _, h100⟩ := (inRange_run es State.init inRange_init).2 _ hmem
      exact ⟨⟨now, hid⟩, h100⟩
  obtain ⟨⟨now, rfl⟩, h100⟩ := hfacts
  have hw : (updateJob (jobId now) v s).jobs (jobId now) = some v := by
    rw [updateJob_jobs, Registry.set_same _ _ _ (jobId_ne_proto now)]
  constructor
  · intro hge
    have hv : v = 100 := by omega
    rw [hw, updateJob_timers, if_pos hv, hv]
    exact ⟨rfl, rfl⟩
  · intro hlt
    have hv : ¬ (v = 100) := by omega
    rw [updateJob_timers, if_neg hv]
    exact ⟨hw, rfl⟩

/-- C10 at the last and at the first timer of job `job:0`: the call with 100,
pending after the submission and 19 firings, writes 100 and schedules nothing;
the call with 5, pending after the submission, writes 5 and schedules 10. -/
theorem updateJob_stops_at_100_or_reschedules_witness :
    DriverCall (jobId 0) 100 ∧ DriverCall (jobId 0) 5 ∧
    ((updateJob (jobId 0) 100 State.init).jobs (jobId 0) = some 100 ∧
      (updateJob (jobId 0) 100 State.init).timers = []) ∧
    ((updateJob (jobId 0) 5 State.init).jobs (jobId 0) = some 5 ∧
      (updateJob (jobId 0) 5 State.init).timers = [] ++ [(jobId 0, 5 + 5)]) :=
  ⟨Or.inr ⟨Event.submit 0 0 :: firings (jobId 0) 19, by decide⟩,
    Or.inr ⟨[Event.submit 0 0], by decide⟩,
    (updateJob_stops_at_100_or_reschedules (jobId 0) 100 State.init
      (Or.inr ⟨Event.submit 0 0 :: firings (jobId 0) 19, by decide⟩)).1 (by decide),
    (updateJob_stops_at_100_or_reschedules (jobId 0) 5 State.init
      (Or.inr ⟨[Event.submit 0 0], by decide⟩)).2 (by decide)⟩

end Polling
